import Mathlib

/-!
Verification of the script-to-timeline assembly engine of the texting-video
worker (`src/worker.js`).  The JavaScript source is shallowly embedded:
strings are `List Char`, JavaScript numbers appearing in the scheduling and
trimming arithmetic are `ℚ`, frame indices are `ℤ`/`ℕ`, the file system seen
by the speech cache is an association list from paths to file sizes, and the
external silence-detection and synthesis collaborators are oracle
parameters.  Every definition mirrors the corresponding function of
`src/worker.js`; theorems about the claims follow at the end of the file.
-/

/-- The set of characters matched by JavaScript's `\s` regex class and
removed by `String.prototype.trim` (ASCII whitespace, NBSP, BOM, and the
Unicode space separators). -/
def jsSpaceChar (c : Char) : Bool :=
  c = ' ' || c = '\t' || c = '\n' || c = '\r' || c = '\x0b' || c = '\x0c' ||
  c = ' ' || c.val = 0x1680 || (0x2000 ≤ c.val && c.val ≤ 0x200A) ||
  c.val = 0x2028 || c.val = 0x2029 || c.val = 0x202F || c.val = 0x205F ||
  c.val = 0x3000 || c.val = 0xFEFF

/-- JavaScript `String.prototype.trim` on a character list. -/
def jsTrimL (l : List Char) : List Char :=
  ((l.dropWhile jsSpaceChar).reverse.dropWhile jsSpaceChar).reverse

/-- `jsTrim` lifted to `String`. -/
def jsTrimS (s : String) : String := ⟨jsTrimL s.data⟩

/-- Lowercase a character list (JavaScript `toLowerCase`, ASCII fragment). -/
def lowerL (l : List Char) : List Char := l.map Char.toLower

/-- Split a list at the first occurrence of character `c`:
returns the part strictly before it and the part strictly after it. -/
def splitAtFirst (c : Char) : List Char → Option (List Char × List Char)
  | [] => none
  | a :: as =>
    if a = c then some ([], as)
    else (splitAtFirst c as).map (fun p => (a :: p.1, p.2))

theorem splitAtFirst_eq (c : Char) :
    ∀ l b r, splitAtFirst c l = some (b, r) → l = b ++ c :: r := by
  intro l
  induction l with
  | nil => intro b r h; simp [splitAtFirst] at h
  | cons a as ih =>
    intro b r h
    rw [splitAtFirst] at h
    by_cases hac : a = c
    · rw [if_pos hac] at h
      injection h with h2
      injection h2 with hb hr
      subst hb; subst hr
      simp [hac]
    · rw [if_neg hac] at h
      cases hopt : splitAtFirst c as with
      | none => rw [hopt] at h; simp at h
      | some p =>
        rw [hopt] at h
        simp only [Option.map_some'] at h
        injection h with h2
        injection h2 with hb hr
        subst hb; subst hr
        have hrec := ih p.1 p.2 (by rw [hopt])
        simp [hrec]

theorem splitAtFirst_length (c : Char) :
    ∀ l b r, splitAtFirst c l = some (b, r) → r.length < l.length := by
  intro l b r h
  have := splitAtFirst_eq c l b r h
  subst this
  simp
  omega

/-- Index of the first occurrence of the pattern `pat` as a contiguous
sublist (JavaScript `String.prototype.indexOf`, found case). -/
def findSubIdx (pat : List Char) : List Char → Option Nat
  | [] => if pat.isEmpty then some 0 else none
  | a :: as =>
    if pat.isPrefixOf (a :: as) then some 0
    else (findSubIdx pat as).map (· + 1)

/-- `parseTtsOverride` (worker.js 310-316): a `" == "` separator splits the
text into a displayed part and a speech part, both trimmed; without the
separator both parts are the text itself. -/
def parseTtsOverride (text : List Char) : List Char × List Char :=
  match findSubIdx (' ' :: '=' :: '=' :: ' ' :: []) text with
  | some idx => (jsTrimL (text.take idx), jsTrimL (text.drop (idx + 4)))
  | none => (text, text)

/-- One pass of the global regex replace `/\x7b([^\x7d]*)\x7d/g → $1` of
`stripBlurMarkers` (worker.js 318-320).  The recursion consumes at least one
character of the scanned suffix per step, so `fuel` bounded below by the
input length (as supplied by the wrapper) makes the fuel case unreachable;
fuel keeps the recursion structural so that it evaluates by `rfl`. -/
def stripBlurAux : Nat → List Char → List Char
  | 0, l => l
  | fuel + 1, l =>
    match l with
    | [] => []
    | a :: as =>
      if a = '\x7b' then
        match splitAtFirst '\x7d' as with
        | some (inner, rest) => inner ++ stripBlurAux fuel rest
        | none => a :: stripBlurAux fuel as
      else a :: stripBlurAux fuel as

/-- `stripBlurMarkers` (worker.js 318-320): each span `\x7b...\x7d` whose
interior has no `\x7d` loses its braces (the regex replaces the span by its
interior, scanning left to right without rescanning replacements); an
opening brace with no later closing brace is kept verbatim. -/
def stripBlurMarkers (l : List Char) : List Char := stripBlurAux l.length l

/-- `stripBlurMarkers` lifted to `String`. -/
def stripBlurMarkersS (s : String) : String := ⟨stripBlurMarkers s.data⟩

example : stripBlurMarkersS "he\x7bll\x7bo\x7d w" = "hell\x7bo w" := by rfl
example : parseTtsOverride "ab == cd".data = ("ab".data, "cd".data) := by rfl
example : parseTtsOverride "abcd".data = ("abcd".data, "abcd".data) := by rfl

/-- `parseTextWithSfx` (worker.js 479-487): the trailing-suffix regex
`/\s*\[([^\]]+)\]\s*$/` — a final `]` (ignoring trailing whitespace), whose
matching `[` is the first `[` after the second-to-last `]`, with a non-empty
bracket-free interior — yields `(cleanText, some sfxName)`, both trimmed;
otherwise `(text.trim, none)`. -/
def parseTextWithSfx (text : List Char) : List Char × Option (List Char) :=
  let rcore := text.reverse.dropWhile jsSpaceChar
  match rcore with
  | ']' :: rbefore =>
    let seg := (rbefore.takeWhile (fun c => c ≠ ']')).reverse
    match splitAtFirst '[' seg with
    | some (pre, inner) =>
      if inner.isEmpty then (jsTrimL text, none)
      else
        let pos := rbefore.length - seg.length + pre.length
        (jsTrimL (text.take pos), some (jsTrimL inner))
    | none => (jsTrimL text, none)
  | _ => (jsTrimL text, none)

example : parseTextWithSfx "Hey [knock]".data = ("Hey".data, some "knock".data) := by rfl
example : parseTextWithSfx "x[a][b]".data = ("x[a]".data, some "b".data) := by rfl
example : parseTextWithSfx "hi []".data = ("hi []".data, none) := by rfl
example : parseTextWithSfx "a[b]c]".data = ("a[b]c]".data, none) := by rfl

/-- The regex character class `[:\s]` used by the thread / UM / CR header
separators. -/
def sepCI (c : Char) : Bool := c = ':' || jsSpaceChar c

/-- Case-insensitive literal-prefix matching (the `/i` flag on the keyword
part of the line patterns); on success returns the rest of the input. -/
def dropPrefixCI : List Char → List Char → Option (List Char)
  | [], l => some l
  | _ :: _, [] => none
  | p :: ps, c :: cs => if c.toLower = p.toLower then dropPrefixCI ps cs else none

/-- JavaScript `/^pat/i.test` for a literal pattern. -/
def startsWithCI (pre l : List Char) : Bool := (dropPrefixCI pre l).isSome

/-- `/^KW[:\s]+(\d+)$/i` — the `UM`/`CR` directive shapes of pass 1
(worker.js 514-515); returns the digit capture. -/
def matchKeyNum (kw : List Char) (l : List Char) : Option (List Char) :=
  match dropPrefixCI kw l with
  | none => none
  | some r0 =>
    match r0 with
    | [] => none
    | c :: _ =>
      if sepCI c then
        let r := r0.dropWhile sepCI
        if !r.isEmpty && r.all Char.isDigit then some r else none
      else none

/-- Digit-string to natural number (`parseInt` on a `\d+` capture). -/
def digitsToNat (l : List Char) : Nat :=
  l.foldl (fun n c => 10 * n + (c.toNat - '0'.toNat)) 0

/-- The numeric value of the break-duration capture `\d+(?:\.\d+)?`
(`parseFloat`, embedded exactly in `ℚ`). -/
def breakVal (d1 d2 : List Char) : ℚ :=
  (digitsToNat d1 : ℚ) +
    (if d2.isEmpty then 0 else (digitsToNat d2 : ℚ) / ((10 : ℚ) ^ d2.length))

/-- The `\s*s\s*:?>$` tail of the break pattern. -/
def breakTailOk (r : List Char) : Bool :=
  match r.dropWhile jsSpaceChar with
  | s :: rest =>
    if s.toLower = 's' then
      match rest.dropWhile jsSpaceChar with
      | ':' :: '>' :: [] => true
      | '>' :: [] => true
      | _ => false
    else false
  | [] => false

/-- `patBreak = /^<break\s*:\s*(\d+(?:\.\d+)?)\s*s\s*:?>$/i` (worker.js 520);
returns the parsed duration in seconds. -/
def matchBreak (l : List Char) : Option ℚ :=
  match l with
  | '<' :: r =>
    match dropPrefixCI "break".data r with
    | none => none
    | some r0 =>
      match r0.dropWhile jsSpaceChar with
      | ':' :: r2 =>
        let r3 := r2.dropWhile jsSpaceChar
        let d1 := r3.takeWhile Char.isDigit
        let r4 := r3.dropWhile Char.isDigit
        if d1.isEmpty then none
        else
          match r4 with
          | '.' :: r5 =>
            let d2 := r5.takeWhile Char.isDigit
            let r6 := r5.dropWhile Char.isDigit
            if d2.isEmpty then none
            else if breakTailOk r6 then some (breakVal d1 d2) else none
          | _ => if breakTailOk r4 then some (breakVal d1 []) else none
      | _ => none
  | _ => none

example : matchBreak "<break:2s>".data = some (breakVal "2".data []) := by rfl
example : matchBreak "<break : 2.5 s :>".data
    = some (breakVal "2".data "5".data) := by rfl
example : breakVal "2".data "5".data = 5/2 := by
  have h2 : digitsToNat "2".data = 2 := by decide
  have h5 : digitsToNat "5".data = 5 := by decide
  norm_num [breakVal, h2, h5]
example : matchBreak "<break:2>".data = none := by rfl

/-- `/^KW\s*>\s*([^:]+)\s*:\s*(.+)$/i` — the shared shape of `patPlugsay`,
`patPlug`, `patRizzsay` and `patRizz` (worker.js 516-519); returns the two
captures (speaker part, text part).  The `\s*`/greedy-backtracking
interplay of the regex reduces to: the speaker capture is everything before
the first `:` after the `>` with its leading spaces removed (except that a
capture that would become empty keeps its final space), and the text
capture is everything after that `:` with its leading spaces likewise
removed. -/
def matchSayLike (kw : List Char) (l : List Char) : Option (List Char × List Char) :=
  match dropPrefixCI kw l with
  | none => none
  | some r0 =>
    match r0.dropWhile jsSpaceChar with
    | '>' :: r2 =>
      match splitAtFirst ':' r2 with
      | none => none
      | some (before, after) =>
        if before.isEmpty || after.isEmpty then none
        else
          let cap1 :=
            let b := before.dropWhile jsSpaceChar
            if b.isEmpty then before.drop (before.length - 1) else b
          let cap2 :=
            let a := after.dropWhile jsSpaceChar
            if a.isEmpty then after.drop (after.length - 1) else a
          some (cap1, cap2)
    | _ => none

example : matchSayLike "plugsay".data "plugsay > Bob : hi".data
    = some ("Bob ".data, "hi".data) := by rfl
example : matchSayLike "plug".data "plug>alice:ok".data
    = some ("alice".data, "ok".data) := by rfl
example : matchSayLike "plug".data "plugsay > Bob : hi".data = none := by rfl

/-- `patThread = /^iMessage[:\s]+([^:]+)(?:\s*:\s*(.+))?$/i` (worker.js 513);
returns the contact capture and the optional avatar capture.  After the
keyword, the greedy `[:\s]+` separator eats every colon/space run; the
contact capture then runs to the first remaining `:` (if any), and an
optional-avatar colon with nothing after it makes the whole pattern fail
(the optional group needs `(.+)` and the bare `$` is blocked by the
leftover `:`). -/
def matchThread (l : List Char) : Option (List Char × Option (List Char)) :=
  match dropPrefixCI "imessage".data l with
  | none => none
  | some r0 =>
    match r0 with
    | [] => none
    | c :: _ =>
      if sepCI c then
        let rest := r0.dropWhile sepCI
        if rest.isEmpty then none
        else
          match splitAtFirst ':' rest with
          | none => some (rest, none)
          | some (before, after) =>
            if after.isEmpty then none
            else
              let a := after.dropWhile jsSpaceChar
              some (before, some (if a.isEmpty then after.drop (after.length - 1) else a))
      else none

example : matchThread "iMessage: Bob".data = some ("Bob".data, none) := by rfl
example : matchThread "imessage Bob : ava.png".data
    = some ("Bob ".data, some "ava.png".data) := by rfl
example : matchThread "iMessage: Bob:".data = none := by rfl
example : matchThread "iMessages".data = none := by rfl

/-- A pending `plugsay`/`rizzsay` intro buffered across loop iterations
(worker.js 532-533, 560-564, 596-600). -/
structure Pending where
  speaker : String
  text : String
  tts_text : String
  sfx : Option String
  silent : Bool
deriving DecidableEq, Repr

/-- One parsed message record.  The JS objects are loosely typed and carry
different fields per kind; absent fields are modelled by the value JS code
reading them would coerce `undefined` to (`""`, `none`, `false`). -/
structure Msg where
  sender : String
  speaker : String
  text : String
  tts_text : String
  sfx : Option String := none
  audio_only : Bool := false
  is_plug : Bool := false
  is_rizz : Bool := false
  is_break : Bool := false
  duration_s : Option ℚ := none
  plug_silent : Bool := false
  plugsay_speaker : String := ""
  plugsay_text : String := ""
  plugsay_tts_text : String := ""
  plugsay_sfx : Option String := none
  plugsay_silent : Bool := false
  rizz_silent : Bool := false
  rizzsay_speaker : String := ""
  rizzsay_text : String := ""
  rizzsay_tts_text : String := ""
  rizzsay_sfx : Option String := none
  rizzsay_silent : Bool := false
deriving DecidableEq, Repr

/-- One conversation thread (worker.js 630). -/
structure Thread where
  contact : String
  messages : List Msg
  avatar : Option String
deriving DecidableEq, Repr

/-- The mutable state of the pass-2 parsing loop (worker.js 508-533). -/
structure PState where
  threads : List Thread := []
  currentContact : Option String := none
  currentMsgs : List Msg := []
  contactAvatar : Option String := none
  pendingPlugsay : Option Pending := none
  pendingRizzsay : Option Pending := none
deriving DecidableEq, Repr

/-- The classification of one line by first matching pattern, mirroring the
branch order of the pass-2 loop body (worker.js 535-667). -/
inductive LineKind where
  | skip
  | brkLine (d : ℚ)
  | plugsayLine (sp txt : List Char)
  | plugLine (sp txt : List Char)
  | rizzsayLine (sp txt : List Char)
  | rizzLine (sp txt : List Char)
  | threadLine (contact : List Char) (avatar : Option (List Char))
  | twoPartLine (speakerSide senderSide textRaw : List Char)
  | onePartLine (sender textRaw : List Char)
  | dropLine
deriving DecidableEq, Repr

/-- Classify one (already trimmed, non-empty) line exactly in the pattern
priority order of the loop: `rizz_say:`/`rizz:` skip, break, plugsay, plug,
rizzsay, rizz, thread header, two-part message (`>` and `:` present, with
JavaScript `indexOf`/`slice` semantics including the `slice(gt+1, -1)`
fallback when no `:` follows the `>`), single-part message (`:` present),
otherwise dropped. -/
def classify (l : List Char) : LineKind :=
  if startsWithCI "rizz_say:".data l || startsWithCI "rizz:".data l then .skip
  else match matchBreak l with
  | some d => .brkLine d
  | none =>
  match matchSayLike "plugsay".data l with
  | some (sp, txt) => .plugsayLine sp txt
  | none =>
  match matchSayLike "plug".data l with
  | some (sp, txt) => .plugLine sp txt
  | none =>
  match matchSayLike "rizzsay".data l with
  | some (sp, txt) => .rizzsayLine sp txt
  | none =>
  match matchSayLike "rizz".data l with
  | some (sp, txt) => .rizzLine sp txt
  | none =>
  match matchThread l with
  | some (c, a) => .threadLine c a
  | none =>
  if l.contains '>' && l.contains ':' then
    let gtIdx := ((splitAtFirst '>' l).map (fun p => p.1.length)).getD 0
    match (splitAtFirst ':' (l.drop gtIdx)).map (fun p => p.1.length + gtIdx) with
    | some colIdx =>
      .twoPartLine (l.take gtIdx) ((l.take colIdx).drop (gtIdx + 1)) (l.drop (colIdx + 1))
    | none =>
      .twoPartLine (l.take gtIdx) ((l.take (l.length - 1)).drop (gtIdx + 1)) l
  else if l.contains ':' then
    let colIdx := ((splitAtFirst ':' l).map (fun p => p.1.length)).getD 0
    .onePartLine (l.take colIdx) (l.drop (colIdx + 1))
  else .dropLine

/-- The `__break__` sentinel message (worker.js 543-548). -/
def brkMsg (d : ℚ) : Msg :=
  { sender := "__break__", speaker := "__break__", text := "", tts_text := "",
    sfx := none, audio_only := false, is_plug := false,
    is_break := true, duration_s := some d }

/-- Flushing the open thread into the result list, guarded by JavaScript
truthiness of `currentContact` and `currentMsgs.length`
(worker.js 629-631 and 670-672). -/
def flushThreads (s : PState) : List Thread :=
  match s.currentContact with
  | some cc =>
    if cc ≠ "" ∧ s.currentMsgs ≠ [] then
      s.threads ++ [⟨cc, s.currentMsgs, s.contactAvatar⟩]
    else s.threads
  | none => s.threads

/-- The `Pending` record built by a `plugsay`/`rizzsay` intro line
(worker.js 556-564 and 592-600). -/
def mkPending (sp txt : List Char) : Pending :=
  let rawSpeaker := jsTrimL sp
  let pr := parseTextWithSfx (jsTrimL txt)
  let po := parseTtsOverride pr.1
  { speaker := ⟨rawSpeaker⟩, text := ⟨po.1⟩,
    tts_text := ⟨stripBlurMarkers po.2⟩,
    sfx := pr.2.map (fun x => (⟨x⟩ : String)),
    silent := lowerL rawSpeaker == "none".data }

/-- The Plug message built from the reply line and the (possibly absent)
pending intro (worker.js 574-584). -/
def mkPlugMsg (pend : Option Pending) (sp txt : List Char) : Msg :=
  let plugSpeaker := jsTrimL sp
  let po := parseTtsOverride (jsTrimL txt)
  { sender := "plug", speaker := ⟨plugSpeaker⟩,
    text := ⟨po.1⟩, tts_text := ⟨stripBlurMarkers po.2⟩,
    sfx := none, audio_only := false, is_plug := true,
    plug_silent := lowerL plugSpeaker == "none".data,
    plugsay_speaker :=
      match pend with
      | some p => p.speaker
      | none => ⟨plugSpeaker⟩,
    plugsay_text :=
      match pend with
      | some p => p.text
      | none => "",
    plugsay_tts_text :=
      match pend with
      | some p => p.tts_text
      | none => "",
    plugsay_sfx :=
      match pend with
      | some p => p.sfx
      | none => none,
    plugsay_silent :=
      match pend with
      | some p => p.silent
      | none => false }

/-- The Rizz message built from the reply line and the (possibly absent)
pending intro (worker.js 610-620). -/
def mkRizzMsg (pend : Option Pending) (sp txt : List Char) : Msg :=
  let rizzSpeaker := jsTrimL sp
  let po := parseTtsOverride (jsTrimL txt)
  { sender := "rizz", speaker := ⟨rizzSpeaker⟩,
    text := ⟨po.1⟩, tts_text := ⟨stripBlurMarkers po.2⟩,
    sfx := none, audio_only := false, is_plug := false,
    is_rizz := true,
    rizz_silent := lowerL rizzSpeaker == "none".data,
    rizzsay_speaker :=
      match pend with
      | some p => p.speaker
      | none => ⟨rizzSpeaker⟩,
    rizzsay_text :=
      match pend with
      | some p => p.text
      | none => "",
    rizzsay_tts_text :=
      match pend with
      | some p => p.tts_text
      | none => "",
    rizzsay_sfx :=
      match pend with
      | some p => p.sfx
      | none => none,
    rizzsay_silent :=
      match pend with
      | some p => p.silent
      | none => false }

/-- The message built by the two-part `speaker > sender : text` branch
(worker.js 641-655). -/
def mkTwoPartMsg (speakerSide senderSide textRaw : List Char) : Msg :=
  let senderStripped := jsTrimL senderSide
  let pr := parseTextWithSfx textRaw
  let po := parseTtsOverride pr.1
  { sender := ⟨senderStripped⟩, speaker := ⟨jsTrimL speakerSide⟩,
    text := ⟨po.1⟩, tts_text := ⟨stripBlurMarkers po.2⟩,
    sfx := pr.2.map (fun x => (⟨x⟩ : String)),
    audio_only := lowerL senderStripped == "audio".data,
    is_plug := false }

/-- The message built by the single-part `sender: text` branch
(worker.js 656-667). -/
def mkOnePartMsg (senderRaw textRaw : List Char) : Msg :=
  let sender := jsTrimL senderRaw
  let pr := parseTextWithSfx textRaw
  let po := parseTtsOverride pr.1
  { sender := ⟨sender⟩, speaker := ⟨sender⟩,
    text := ⟨po.1⟩, tts_text := ⟨stripBlurMarkers po.2⟩,
    sfx := pr.2.map (fun x => (⟨x⟩ : String)),
    audio_only := false, is_plug := false }

/-- The effect of one classified line on the parser state
(worker.js 535-667, one constructor per branch). -/
def applyKind (s : PState) (k : LineKind) : PState :=
  match k with
  | .skip => s
  | .brkLine d =>
    if s.currentContact ≠ none then
      { s with currentMsgs := s.currentMsgs ++ [brkMsg d] }
    else s
  | .plugsayLine sp txt =>
    { s with pendingPlugsay := some (mkPending sp txt) }
  | .plugLine sp txt =>
    let s2 :=
      if s.currentContact ≠ none then
        { s with currentMsgs := s.currentMsgs ++ [mkPlugMsg s.pendingPlugsay sp txt] }
      else s
    { s2 with pendingPlugsay := none }
  | .rizzsayLine sp txt =>
    { s with pendingRizzsay := some (mkPending sp txt) }
  | .rizzLine sp txt =>
    let s2 :=
      if s.currentContact ≠ none then
        { s with currentMsgs := s.currentMsgs ++ [mkRizzMsg s.pendingRizzsay sp txt] }
      else s
    { s2 with pendingRizzsay := none }
  | .threadLine c a =>
    { threads := flushThreads s,
      currentContact := some ⟨jsTrimL c⟩,
      currentMsgs := [],
      contactAvatar :=
        match a with
        | some av => if av.isEmpty then none else some ⟨jsTrimL av⟩
        | none => none,
      pendingPlugsay := none,
      pendingRizzsay := none }
  | .twoPartLine speakerSide senderSide textRaw =>
    { s with currentMsgs := s.currentMsgs ++ [mkTwoPartMsg speakerSide senderSide textRaw] }
  | .onePartLine senderRaw textRaw =>
    { s with currentMsgs := s.currentMsgs ++ [mkOnePartMsg senderRaw textRaw] }
  | .dropLine => s

/-- One iteration of the pass-2 loop. -/
def stepLine (s : PState) (l : List Char) : PState := applyKind s (classify l)

/-- The result of `parseFileSettingsAndThreads`. -/
structure ParseResult where
  unreadCount : String
  uiCornerRadius : ℕ
  threads : List Thread
deriving DecidableEq, Repr

/-- `parseFileSettingsAndThreads` (worker.js 500-675) on the file's lines:
trim each line and drop empties; pass 1 extracts the `UM`/`CR` directives
(last occurrence wins, `CR` scaled by `Math.round(n * 1.5)`) and removes
those lines; pass 2 folds the classified-line step over the remaining
lines; finally the open thread is flushed if non-empty. -/
def pass1Step (acc : String × ℕ × List (List Char)) (line : List Char) :
    String × ℕ × List (List Char) :=
  match matchKeyNum "um".data line with
  | some d => ((⟨d⟩ : String), acc.2.1, acc.2.2)
  | none =>
    match matchKeyNum "cr".data line with
    | some d => (acc.1, (3 * digitsToNat d + 1) / 2, acc.2.2)
    | none => (acc.1, acc.2.1, acc.2.2 ++ [line])

def parseFileSettingsAndThreads (rawLines : List (List Char)) : ParseResult :=
  let lines := (rawLines.map jsTrimL).filter (fun l => !l.isEmpty)
  let p1 := lines.foldl pass1Step ("999999+", 50, ([] : List (List Char)))
  let finalSt := p1.2.2.foldl stepLine {}
  ⟨p1.1, p1.2.1, flushThreads finalSt⟩

/-- All messages ever stored in a parser state, flushed or pending. -/
def allMsgs (s : PState) : List Msg :=
  (s.threads.map Thread.messages).flatten ++ s.currentMsgs

example :
    (parseFileSettingsAndThreads
      ["iMessage: Bob".data, "Bob > Alice: Hi".data]).threads.map Thread.contact
    = ["Bob"] := by decide

example :
    ((parseFileSettingsAndThreads
      ["UM: 12".data, "iMessage: Bob".data, "Bob > Alice: Hi [knock]".data,
       "Alice: yo \x7bx\x7d == said".data]).threads.map
        (fun t => t.messages.map (fun m => (m.speaker, m.text, m.tts_text, m.sfx))))
    = [[("Bob", "Hi", "Hi", some "knock"), ("Alice", "yo \x7bx\x7d", "said", none)]] := by
  decide

example :
    (parseFileSettingsAndThreads ["UM: 12".data, "CR: 5".data]).uiCornerRadius = 8 := by
  decide

/-- JavaScript `Math.round` (half toward positive infinity) on a rational. -/
def jround (x : ℚ) : ℤ := ⌊x + 1/2⌋

/-- The cumulative frame-count loop of `writeVideoWithFfmpeg`
(worker.js 1721-1729): running time `cumulative`, previous cumulative frame
count `prevEndFrame`, one count `round(cumulative * fps) - prevEndFrame`
per duration. -/
def frameCountsAux (fps : ℚ) : List ℚ → ℚ → ℤ → List ℤ
  | [], _, _ => []
  | d :: ds, cumulative, prevEndFrame =>
    let c := cumulative + d
    let endFrame := jround (c * fps)
    (endFrame - prevEndFrame) :: frameCountsAux fps ds c endFrame

/-- Per-scene frame counts computed by `writeVideoWithFfmpeg` from the
measured scene audio durations (worker.js 1720-1729). -/
def writeVideoFrameCounts (fps : ℚ) (durations : List ℚ) : List ℤ :=
  frameCountsAux fps durations 0 0

/-- The frame-emission loop of `writeVideoWithFfmpeg` (worker.js 1740-1760):
scenes with a materialized canvas update `lastFrameJpeg`; a scene is skipped
entirely (`if (!lastFrameJpeg) continue`) when no frame has been
materialized yet; otherwise `frameCounts[si] || 0` copies of the current
last frame are emitted.  Canvases are opaque (`ℕ` ids). -/
def writeFrames : List (Option ℕ) → List ℤ → Option ℕ → List ℕ
  | [], _, _ => []
  | c :: cs, counts, last =>
    let last2 := match c with | some img => some img | none => last
    match last2 with
    | none => writeFrames cs counts.tail none
    | some img =>
      List.replicate (counts.headD 0).toNat img ++ writeFrames cs counts.tail (some img)

/-- Modelled from the spec: the frame stream §4.4 describes — every scene
emits exactly its frame count of images, a null-frame scene repeating the
most recently materialized image (`img` standing for the image in force
before the first listed scene). -/
def specFrameStream : List (Option ℕ) → List ℤ → ℕ → List ℕ
  | [], _, _ => []
  | c :: cs, counts, img =>
    let img2 := match c with | some i => i | none => img
    List.replicate (counts.headD 0).toNat img2 ++ specFrameStream cs counts.tail img2

/-- `ttsCachePath` (worker.js 372-377): cache file name
`<speaker.trim().toLowerCase()>_<hash(text)>.mp3`; the sha256-prefix hash of
the text is abstracted into the `hash` oracle parameter. -/
def ttsCachePath (hash : String → String) (text speaker : String) : String :=
  ⟨lowerL (jsTrimL speaker.data)⟩ ++ "_" ++ hash text ++ ".mp3"

/-- The file system visible to the speech cache: paths with their sizes. -/
structure TtsFs where
  files : List (String × ℕ)
deriving DecidableEq, Repr

/-- Size of the file at a path, if it exists. -/
def lookupSize (st : TtsFs) (p : String) : Option ℕ :=
  (st.files.find? (fun e => e.1 = p)).map (fun e => e.2)

/-- Writing a file (overwrite if present). -/
def writeFile (st : TtsFs) (p : String) (sz : ℕ) : TtsFs :=
  ⟨(p, sz) :: st.files.filter (fun e => e.1 ≠ p)⟩

/-- `genAi33ProAudio` (worker.js 379-421), with the network exchange
abstracted: if a non-empty file exists at the cache path it is copied to
`outPath` with zero synthesis calls; otherwise the synthesis collaborator
is invoked once, producing `synthSize` bytes written to both `outPath` and
the cache path.  Returns the new file system and the number of synthesis
invocations. -/
def genAi33ProAudio (hash : String → String) (synthSize : ℕ) (st : TtsFs)
    (text outPath speaker : String) : TtsFs × ℕ :=
  match lookupSize st (ttsCachePath hash text speaker) with
  | some sz =>
    if 0 < sz then (writeFile st outPath sz, 0)
    else
      (writeFile (writeFile st outPath synthSize)
        (ttsCachePath hash text speaker) synthSize, 1)
  | none =>
    (writeFile (writeFile st outPath synthSize)
      (ttsCachePath hash text speaker) synthSize, 1)

/-- The guard padding `keepMs = 0.08` seconds (worker.js 1875, 1910). -/
def keepMs : ℚ := 8/100

/-- The keep-range accumulation step (worker.js 1880-1884 and 1914-1918):
a new `[rs, re]` merges into the last accumulated range when `rs` is at or
before its end (extending the end to the max), else is appended. -/
def mergePush (acc : List (ℚ × ℚ)) (rs re : ℚ) : List (ℚ × ℚ) :=
  match acc.getLast? with
  | none => acc ++ [(rs, re)]
  | some l => if rs ≤ l.2 then acc.dropLast ++ [(l.1, max l.2 re)] else acc ++ [(rs, re)]

/-- One timeline slab (worker.js 1889-1896); `stop`/`prot` stand for the JS
fields `end`/`protected` (Lean keywords). -/
structure Slab where
  start : ℚ
  stop : ℚ
  prot : Bool
deriving DecidableEq, Repr

/-- Partitioning `[0, duration]` into alternating unprotected/protected
slabs along the sorted protected ranges (worker.js 1889-1896). -/
def buildSlabs (duration : ℚ) : List (ℚ × ℚ) → ℚ → List Slab
  | [], cursor => if cursor < duration then [⟨cursor, duration, false⟩] else []
  | (ps, pe) :: rest, cursor =>
    (if cursor < ps then [⟨cursor, ps, false⟩] else []) ++
      ⟨ps, pe, true⟩ :: buildSlabs duration rest pe

/-- Keep-range contribution of one slab (worker.js 1899-1921): a protected
slab is pushed verbatim; an unprotected slab is silence-analyzed by the
`detect` oracle (local speech ranges of the extracted `[start, stop]`
audio), each range padded by `keepMs`, clamped to the slab, offset to
global time, and merge-pushed. -/
def slabKeep (detect : ℚ → ℚ → List (ℚ × ℚ)) (acc : List (ℚ × ℚ)) (slab : Slab) :
    List (ℚ × ℚ) :=
  if slab.prot then acc ++ [(slab.start, slab.stop)]
  else
    (detect slab.start slab.stop).foldl
      (fun a r =>
        mergePush a (max slab.start (slab.start + r.1 - keepMs))
          (min slab.stop (slab.start + r.2 + keepMs)))
      acc

/-- Keep ranges in the no-protected-ranges branch (worker.js 1873-1885):
whole-file silence detection, padding, clamping to `[0, duration]`, and
merge-push coalescing. -/
def keepRangesNoProt (duration : ℚ) (detect : ℚ → ℚ → List (ℚ × ℚ)) :
    List (ℚ × ℚ) :=
  (detect 0 duration).foldl
    (fun a r => mergePush a (max 0 (r.1 - keepMs)) (min duration (r.2 + keepMs))) []

/-- Keep ranges in the protected-ranges branch (worker.js 1886-1922):
protected ranges sorted by start (JS stable `sort((a,b) => a[0]-b[0])`),
slabs built from the sorted list, then folded through `slabKeep`. -/
def keepRangesWithProt (duration : ℚ) (prot : List (ℚ × ℚ))
    (detect : ℚ → ℚ → List (ℚ × ℚ)) : List (ℚ × ℚ) :=
  (buildSlabs duration (prot.mergeSort (fun a b => a.1 ≤ b.1)) 0).foldl
    (slabKeep detect) []

/-- The complete keep-range computation of `removeSilenceFromVideo`
(worker.js 1872-1922), selecting the branch on presence of protected
ranges. -/
def computeKeepRanges (duration : ℚ) (prot : List (ℚ × ℚ))
    (detect : ℚ → ℚ → List (ℚ × ℚ)) : List (ℚ × ℚ) :=
  if prot.isEmpty then keepRangesNoProt duration detect
  else keepRangesWithProt duration prot detect

/-- What `removeSilenceFromVideo` does with the final clip. -/
inductive TrimAction where
  | copyInput
  | encodeTrim
deriving DecidableEq, Repr

/-- The tail of `removeSilenceFromVideo` (worker.js 1927-1949): empty keep
set → copy the input to the output path; non-zero trimming-encode status →
copy the input to the output path; otherwise keep the trimmed encode.  The
output path is returned in every case.  `encodeStatus` abstracts the exit
status of the selection-filter encode. -/
def removeSilenceFromVideo (duration : ℚ) (prot : List (ℚ × ℚ))
    (detect : ℚ → ℚ → List (ℚ × ℚ)) (encodeStatus : ℤ)
    (outputVideo : String) : TrimAction × String :=
  let keepRanges := computeKeepRanges duration prot detect
  if keepRanges.isEmpty then (.copyInput, outputVideo)
  else if encodeStatus ≠ 0 then (.copyInput, outputVideo)
  else (.encodeTrim, outputVideo)

/-- A range list covers `[a, b]` when every point of `[a, b]` lies in some
listed range. -/
def covers (rs : List (ℚ × ℚ)) (a b : ℚ) : Prop :=
  ∀ x : ℚ, a ≤ x → x ≤ b → ∃ p ∈ rs, p.1 ≤ x ∧ x ≤ p.2

/-- `isImageMessage` (worker.js 1118-1122): the last whitespace-separated
token of the trimmed text, tested against `/\.(png|jpg|jpeg|gif|webp)$/i`. -/
def isImageMessage (text : String) : Bool × String :=
  let t := jsTrimL text.data
  let fname := (t.reverse.takeWhile (fun c => !jsSpaceChar c)).reverse
  let lower := lowerL fname
  (".png".data.isSuffixOf lower || ".jpg".data.isSuffixOf lower ||
   ".jpeg".data.isSuffixOf lower || ".gif".data.isSuffixOf lower ||
   ".webp".data.isSuffixOf lower, ⟨fname⟩)

/-- The per-message image flag recorded by `makeBubbleClips`
(worker.js 1084-1113): audio-only, plug, rizz and break messages get
`false`; otherwise the blur-stripped text is tested as an image reference. -/
def bubbleIsImgFlag (m : Msg) : Bool :=
  if m.audio_only || m.is_plug || m.is_rizz || m.is_break then false
  else (isImageMessage (stripBlurMarkersS m.text)).1

/-- `/^[.\s…]+$/` (worker.js 2079). -/
def isDotsOnly (s : String) : Bool :=
  !s.data.isEmpty && s.data.all (fun c => c = '.' || c = '…' || jsSpaceChar c)

/-- The audio source a scene receives. -/
inductive SceneAudio where
  | sfxFile (p : String)
  | synthSpeech (ttsText speaker : String)
deriving DecidableEq, Repr

/-- The audio-source selection of the timeline builder for an ordinary
(non-break, non-plug, non-rizz) message (worker.js 2025, 2079-2087): image
or dots-only messages reuse the fixed notification sound of their side
(`sent` for sender `"me"`, `received` otherwise); every other message has
speech synthesized from `tts_text` (falling back to the blur-stripped
display text when empty) with the message's speaker. -/
def sceneAudioSource (sentSfxPath receivedSfxPath : String) (m : Msg) : SceneAudio :=
  let isDots := isDotsOnly m.text
  if bubbleIsImgFlag m || isDots then
    .sfxFile (if m.sender = "me" then sentSfxPath else receivedSfxPath)
  else
    .synthSpeech (if m.tts_text ≠ "" then m.tts_text else stripBlurMarkersS m.text)
      m.speaker

example : (isImageMessage "see pic.PNG").1 = true := by decide
example : isDotsOnly ".. ." = true := by decide

theorem frameCountsAux_sum (fps : ℚ) :
    ∀ (ds : List ℚ) (c : ℚ),
      (frameCountsAux fps ds c (jround (c * fps))).sum
        = jround ((c + ds.sum) * fps) - jround (c * fps) := by
  intro ds
  induction ds with
  | nil => intro c; simp [frameCountsAux]
  | cons d ds ih =>
    intro c
    have h2 := ih (c + d)
    simp only [frameCountsAux, List.sum_cons]
    rw [h2, ← add_assoc]
    omega

/-- C1.  Drift-free frame scheduling: for every duration sequence and fps,
the per-scene frame counts computed by the cumulative rule of
`writeVideoWithFfmpeg` sum to exactly `round(total * fps)`. -/
theorem writeVideoFrameCounts_sum (fps : ℚ) (durations : List ℚ) :
    (writeVideoFrameCounts fps durations).sum = jround (durations.sum * fps) := by
  have h0 : jround (0 * fps) = (0 : ℤ) := by norm_num [jround]
  have key := frameCountsAux_sum fps durations 0
  rw [h0] at key
  unfold writeVideoFrameCounts
  rw [key]
  norm_num

example : writeVideoFrameCounts 30 [1, 1, 1] = [30, 30, 30] := by
  norm_num [writeVideoFrameCounts, frameCountsAux, jround]

/-- C3 (amended).  As soon as a materialized image is in force, the frame
stream written by `writeVideoWithFfmpeg` is exactly the §4.4 stream: every
scene contributes its full frame count, a null-frame scene repeating the
most recently materialized image. -/
theorem writeFrames_eq_specStream :
    ∀ (cs : List (Option ℕ)) (counts : List ℤ) (img : ℕ),
      writeFrames cs counts (some img) = specFrameStream cs counts img := by
  intro cs
  induction cs with
  | nil => intro counts img; rfl
  | cons c cs ih =>
    intro counts img
    cases c with
    | some i => simp only [writeFrames, specFrameStream]; rw [ih]
    | none => simp only [writeFrames, specFrameStream]; rw [ih]

/-- C3 counterexample.  A null-frame scene that precedes every materialized
frame is skipped outright: with scene frame counts `[5, 3]` and a first
scene whose canvas is null, only `3` frames are written instead of the
claimed `5 + 3 = 8`. -/
theorem writeFrames_missing_counterexample :
    (writeFrames [none, some 1] [(5 : ℤ), 3] none).length = 3 ∧
      (writeFrames [none, some 1] [(5 : ℤ), 3] none).length ≠ 8 := by
  constructor
  · rfl
  · decide

theorem find?_filter_ne (p q : String) (hqp : q ≠ p) :
    ∀ fs : List (String × ℕ),
      (fs.filter (fun e => e.1 ≠ p)).find? (fun e => e.1 = q)
        = fs.find? (fun e => e.1 = q) := by
  intro fs
  induction fs with
  | nil => rfl
  | cons e fs ih =>
    by_cases hep : e.1 = p
    · have hne : e.1 ≠ q := fun h => hqp (hep.symm.trans h).symm
      rw [List.filter_cons, if_neg (by simpa using hep), ih,
        List.find?_cons_of_neg _ (by simpa using hne)]
    · by_cases heq : e.1 = q
      · rw [List.filter_cons, if_pos (by simpa using hep),
          List.find?_cons_of_pos _ (by simpa using heq),
          List.find?_cons_of_pos _ (by simpa using heq)]
      · rw [List.filter_cons, if_pos (by simpa using hep),
          List.find?_cons_of_neg _ (by simpa using heq),
          List.find?_cons_of_neg _ (by simpa using heq), ih]

theorem lookupSize_writeFile (st : TtsFs) (p q : String) (v : ℕ) :
    lookupSize (writeFile st p v) q = if q = p then some v else lookupSize st q := by
  by_cases hqp : q = p
  · subst hqp
    simp [lookupSize, writeFile, List.find?_cons]
  · unfold lookupSize writeFile
    dsimp only
    rw [if_neg hqp, List.find?_cons_of_neg _ (by simpa using Ne.symm hqp),
      find?_filter_ne p q hqp st.files]

/-- C4.  Cache determinism of the speech resolver: the cache path is the
same pure function of `(speaker, text)` on every call; a call that finds a
non-empty file at that path returns it by copying to the output path with
zero synthesis calls; and two successive calls for the same
`(speaker, text)` pair invoke the synthesis collaborator at most once
(synthesis producing a non-empty file). -/
theorem genAi33ProAudio_cache (hash : String → String) (synthSize : ℕ)
    (st : TtsFs) (text speaker out1 out2 : String) :
    (∀ n, lookupSize st (ttsCachePath hash text speaker) = some n → 0 < n →
        genAi33ProAudio hash synthSize st text out1 speaker = (writeFile st out1 n, 0)) ∧
    (0 < synthSize →
      (genAi33ProAudio hash synthSize st text out1 speaker).2 +
        (genAi33ProAudio hash synthSize
          (genAi33ProAudio hash synthSize st text out1 speaker).1
          text out2 speaker).2 ≤ 1) := by
  constructor
  · intro n hl hn
    unfold genAi33ProAudio
    rw [hl]
    simp [hn]
  · intro hsz
    cases hl : lookupSize st (ttsCachePath hash text speaker) with
    | some sz =>
      by_cases hpos : 0 < sz
      · have h1 : genAi33ProAudio hash synthSize st text out1 speaker
            = (writeFile st out1 sz, 0) := by
          unfold genAi33ProAudio; rw [hl]; simp [hpos]
        rw [h1]
        have hc : ∃ m, lookupSize (writeFile st out1 sz) (ttsCachePath hash text speaker)
            = some m ∧ 0 < m := by
          rw [lookupSize_writeFile]
          by_cases hout : ttsCachePath hash text speaker = out1
          · rw [if_pos hout]; exact ⟨sz, rfl, hpos⟩
          · rw [if_neg hout, hl]; exact ⟨sz, rfl, hpos⟩
        obtain ⟨m, hm, hmpos⟩ := hc
        have h2 : genAi33ProAudio hash synthSize (writeFile st out1 sz) text out2 speaker
            = (writeFile (writeFile st out1 sz) out2 m, 0) := by
          unfold genAi33ProAudio; rw [hm]; simp [hmpos]
        simp [h2]
      · have h1 : genAi33ProAudio hash synthSize st text out1 speaker
            = (writeFile (writeFile st out1 synthSize)
                (ttsCachePath hash text speaker) synthSize, 1) := by
          unfold genAi33ProAudio; rw [hl]; simp [hpos]
        rw [h1]
        have hm : lookupSize
            (writeFile (writeFile st out1 synthSize)
              (ttsCachePath hash text speaker) synthSize)
            (ttsCachePath hash text speaker) = some synthSize := by
          rw [lookupSize_writeFile]; simp
        have h2 : genAi33ProAudio hash synthSize
            (writeFile (writeFile st out1 synthSize)
              (ttsCachePath hash text speaker) synthSize) text out2 speaker
            = (writeFile (writeFile (writeFile st out1 synthSize)
                (ttsCachePath hash text speaker) synthSize) out2 synthSize, 0) := by
          unfold genAi33ProAudio; rw [hm]; simp [hsz]
        simp [h2]
    | none =>
      have h1 : genAi33ProAudio hash synthSize st text out1 speaker
          = (writeFile (writeFile st out1 synthSize)
              (ttsCachePath hash text speaker) synthSize, 1) := by
        unfold genAi33ProAudio; rw [hl]
      rw [h1]
      have hm : lookupSize
          (writeFile (writeFile st out1 synthSize)
            (ttsCachePath hash text speaker) synthSize)
          (ttsCachePath hash text speaker) = some synthSize := by
        rw [lookupSize_writeFile]; simp
      have h2 : genAi33ProAudio hash synthSize
          (writeFile (writeFile st out1 synthSize)
            (ttsCachePath hash text speaker) synthSize) text out2 speaker
          = (writeFile (writeFile (writeFile st out1 synthSize)
              (ttsCachePath hash text speaker) synthSize) out2 synthSize, 0) := by
        unfold genAi33ProAudio; rw [hm]; simp [hsz]
      simp [h2]

/-- C4 witness: with a one-entry file system holding a 5-byte file at
`alice_h.mp3` (the cache path for speaker `"Alice"` under the constant
hash), the call copies it with zero synthesis calls; on an empty file
system two identical requests synthesize at most once. -/
theorem genAi33ProAudio_cache_witness :
    genAi33ProAudio (fun _ => "h") 1 ⟨[("alice_h.mp3", 5)]⟩ "Hello" "o1" "Alice"
        = (writeFile ⟨[("alice_h.mp3", 5)]⟩ "o1" 5, 0) ∧
      (genAi33ProAudio (fun _ => "h") 1 ⟨[]⟩ "Hello" "o1" "Alice").2 +
        (genAi33ProAudio (fun _ => "h") 1
          (genAi33ProAudio (fun _ => "h") 1 ⟨[]⟩ "Hello" "o1" "Alice").1
          "Hello" "o2" "Alice").2 ≤ 1 :=
  ⟨(genAi33ProAudio_cache (fun _ => "h") 1 ⟨[("alice_h.mp3", 5)]⟩
      "Hello" "Alice" "o1" "o2").1 5 (by decide) (by decide),
   (genAi33ProAudio_cache (fun _ => "h") 1 ⟨[]⟩
      "Hello" "Alice" "o1" "o2").2 (by decide)⟩

/-- C7.  Keep-range coalescing: with ranges accumulated in chronological
order (the last range starts no later than the new one), a new range
starting at or before the last range's end merges into it taking
min-start/max-end, a range starting strictly later is appended; in
particular `[1,2]` then `[1.9,3]` gives `[1,3]`, while `[1,2]` then
`[2.5,3]` stays two ranges. -/
theorem mergePush_coalesce :
    (∀ (acc : List (ℚ × ℚ)) (l : ℚ × ℚ) (rs re : ℚ),
      acc.getLast? = some l → l.1 ≤ rs →
      (rs ≤ l.2 → mergePush acc rs re = acc.dropLast ++ [(min l.1 rs, max l.2 re)]) ∧
      (l.2 < rs → mergePush acc rs re = acc ++ [(rs, re)])) ∧
    mergePush [((1 : ℚ), 2)] (19/10) 3 = [((1 : ℚ), 3)] ∧
    mergePush [((1 : ℚ), 2)] (5/2) 3 = [((1 : ℚ), 2), (5/2, 3)] := by
  refine ⟨?_, ?_, ?_⟩
  · intro acc l rs re hlast hl1
    by_cases hcase : rs ≤ l.2
    · refine ⟨fun _ => ?_, fun hgt => absurd hcase (not_le.mpr hgt)⟩
      unfold mergePush
      rw [hlast]
      dsimp only
      rw [if_pos hcase, min_eq_left hl1]
    · refine ⟨fun hle => absurd hle hcase, fun _ => ?_⟩
      unfold mergePush
      rw [hlast]
      dsimp only
      rw [if_neg hcase]
  · have : ((19 : ℚ)/10) ≤ 2 := by norm_num
    simp [mergePush, this]
    norm_num
  · have : ¬ ((5 : ℚ)/2) ≤ 2 := by norm_num
    simp [mergePush, this]

/-- C7 witness: the general coalescing statement applied at the concrete
accumulator `[(0,1)]` with incoming range `[1/2, 2]`. -/
theorem mergePush_coalesce_witness :
    mergePush [((0 : ℚ), 1)] (1/2) 2
      = List.dropLast [((0 : ℚ), 1)] ++ [(min (0 : ℚ) (1/2), max 1 2)] :=
  (mergePush_coalesce.1 [((0 : ℚ), 1)] ((0 : ℚ), 1) (1/2) 2 (by simp)
    (by norm_num)).1 (by norm_num)

/-- C8.  Trimmer graceful degradation: `removeSilenceFromVideo` always
returns the output path; an empty keep-range set makes it copy the input
unchanged, and a failing trimming encode likewise makes it copy the input
unchanged. -/
theorem removeSilenceFromVideo_degrades (duration : ℚ) (prot : List (ℚ × ℚ))
    (detect : ℚ → ℚ → List (ℚ × ℚ)) (encodeStatus : ℤ) (outputVideo : String) :
    (removeSilenceFromVideo duration prot detect encodeStatus outputVideo).2
        = outputVideo ∧
    (computeKeepRanges duration prot detect = [] →
      (removeSilenceFromVideo duration prot detect encodeStatus outputVideo).1
        = TrimAction.copyInput) ∧
    (encodeStatus ≠ 0 →
      (removeSilenceFromVideo duration prot detect encodeStatus outputVideo).1
        = TrimAction.copyInput) := by
  refine ⟨?_, ?_, ?_⟩
  · by_cases hk : (computeKeepRanges duration prot detect).isEmpty
    · simp [removeSilenceFromVideo, hk]
    · by_cases hs : encodeStatus ≠ 0
      · simp [removeSilenceFromVideo, hk, hs]
      · simp [removeSilenceFromVideo, hk, hs]
  · intro h
    have hk : (computeKeepRanges duration prot detect).isEmpty = true := by
      rw [h]; rfl
    simp [removeSilenceFromVideo, hk]
  · intro hs
    by_cases hk : (computeKeepRanges duration prot detect).isEmpty
    · simp [removeSilenceFromVideo, hk]
    · simp [removeSilenceFromVideo, hk, hs]

/-- C8 witness: with no protected ranges, a silence detector that reports
no speech (empty keep set) and a failing encode status, the model copies
the input and still returns the output path. -/
theorem removeSilenceFromVideo_degrades_witness :
    (removeSilenceFromVideo 1 [] (fun _ _ => []) 1 "out.mp4").1
        = TrimAction.copyInput ∧
      (removeSilenceFromVideo 1 [] (fun _ _ => []) 1 "out.mp4").1
        = TrimAction.copyInput ∧
      (removeSilenceFromVideo 1 [] (fun _ _ => []) 1 "out.mp4").2 = "out.mp4" :=
  ⟨(removeSilenceFromVideo_degrades 1 [] (fun _ _ => []) 1 "out.mp4").2.1 rfl,
   (removeSilenceFromVideo_degrades 1 [] (fun _ _ => []) 1 "out.mp4").2.2
      (by decide),
   (removeSilenceFromVideo_degrades 1 [] (fun _ _ => []) 1 "out.mp4").1⟩

theorem covers_mergePush (acc : List (ℚ × ℚ)) (rs re a b : ℚ)
    (h : covers acc a b) : covers (mergePush acc rs re) a b := by
  intro x hax hxb
  obtain ⟨p, hp, hp1, hp2⟩ := h x hax hxb
  unfold mergePush
  cases hlast : acc.getLast? with
  | none => exact ⟨p, List.mem_append_left _ hp, hp1, hp2⟩
  | some l =>
    dsimp only
    by_cases hrs : rs ≤ l.2
    · rw [if_pos hrs]
      have hacc : acc.dropLast ++ [l] = acc := List.dropLast_append_getLast? l hlast
      have hp' : p ∈ acc.dropLast ++ [l] := by rw [hacc]; exact hp
      rcases List.mem_append.mp hp' with hpd | hpl
      · exact ⟨p, List.mem_append_left _ hpd, hp1, hp2⟩
      · have hpl' : p = l := by simpa using hpl
        refine ⟨(l.1, max l.2 re), List.mem_append_right _ (by simp), ?_, ?_⟩
        · rw [← hpl']; exact hp1
        · subst hpl'; exact le_trans hp2 le_sup_left
    · rw [if_neg hrs]
      exact ⟨p, List.mem_append_left _ hp, hp1, hp2⟩


theorem covers_append_right (acc l : List (ℚ × ℚ)) (a b : ℚ)
    (h : covers acc a b) : covers (acc ++ l) a b := by
  intro x hax hxb
  obtain ⟨p, hp, hp1, hp2⟩ := h x hax hxb
  exact ⟨p, List.mem_append_left _ hp, hp1, hp2⟩

theorem covers_foldl_mergePush (g1 g2 : ℚ × ℚ → ℚ) (a b : ℚ) :
    ∀ (l : List (ℚ × ℚ)) (acc : List (ℚ × ℚ)), covers acc a b →
      covers (l.foldl (fun ac r => mergePush ac (g1 r) (g2 r)) acc) a b := by
  intro l
  induction l with
  | nil => intro acc h; exact h
  | cons r rest ih =>
    intro acc h
    exact ih _ (covers_mergePush acc (g1 r) (g2 r) a b h)

theorem covers_slabKeep (detect : ℚ → ℚ → List (ℚ × ℚ)) (acc : List (ℚ × ℚ))
    (slab : Slab) (a b : ℚ) (h : covers acc a b) :
    covers (slabKeep detect acc slab) a b := by
  unfold slabKeep
  by_cases hp : slab.prot
  · rw [if_pos hp]
    exact covers_append_right acc _ a b h
  · rw [if_neg hp]
    exact covers_foldl_mergePush
      (fun r => max slab.start (slab.start + r.1 - keepMs))
      (fun r => min slab.stop (slab.start + r.2 + keepMs)) a b _ acc h

theorem covers_foldl_slabKeep (detect : ℚ → ℚ → List (ℚ × ℚ)) (a b : ℚ) :
    ∀ (slabs : List Slab) (acc : List (ℚ × ℚ)), covers acc a b →
      covers (slabs.foldl (slabKeep detect) acc) a b := by
  intro slabs
  induction slabs with
  | nil => intro acc h; exact h
  | cons slab rest ih =>
    intro acc h
    exact ih _ (covers_slabKeep detect acc slab a b h)

theorem slab_mem_buildSlabs (duration : ℚ) :
    ∀ (l : List (ℚ × ℚ)) (cursor ps pe : ℚ), (ps, pe) ∈ l →
      (⟨ps, pe, true⟩ : Slab) ∈ buildSlabs duration l cursor := by
  intro l
  induction l with
  | nil => intro cursor ps pe h; simp at h
  | cons q rest ih =>
    intro cursor ps pe h
    rcases List.mem_cons.mp h with hq | hrest
    · subst hq
      unfold buildSlabs
      exact List.mem_append_right _ (List.mem_cons_self _ _)
    · unfold buildSlabs
      exact List.mem_append_right _ (List.mem_cons_of_mem _ (ih q.2 ps pe hrest))

/-- C2.  Protected-range preservation: every protected range `[s, e]`
handed to `removeSilenceFromVideo` (within the clip, sorted, disjoint) is
fully covered by the computed keep-range set, whatever the silence
detector reports. -/
theorem protectedRanges_preserved (duration : ℚ) (prot : List (ℚ × ℚ))
    (detect : ℚ → ℚ → List (ℚ × ℚ)) (s e : ℚ)
    (hmem : (s, e) ∈ prot) (h0 : 0 ≤ s) (hse : s < e) (hed : e ≤ duration)
    (hsorted : List.Pairwise (fun p q : ℚ × ℚ => p.2 ≤ q.1) prot) :
    covers (computeKeepRanges duration prot detect) s e := by
  have hne : ¬ prot.isEmpty = true := by
    cases prot with
    | nil => simp at hmem
    | cons p rest => simp
  unfold computeKeepRanges
  rw [if_neg hne]
  unfold keepRangesWithProt
  have hmem2 : (s, e) ∈ prot.mergeSort (fun a b => a.1 ≤ b.1) :=
    (List.mergeSort_perm prot _).mem_iff.mpr hmem
  have hslab := slab_mem_buildSlabs duration _ 0 s e hmem2
  obtain ⟨l1, l2, hsplit⟩ := List.mem_iff_append.mp hslab
  rw [hsplit, List.foldl_append, List.foldl_cons]
  refine covers_foldl_slabKeep detect s e l2 _ ?_
  have hcov : covers (slabKeep detect (l1.foldl (slabKeep detect) []) ⟨s, e, true⟩) s e := by
    unfold slabKeep
    dsimp only
    rw [if_pos rfl]
    intro x hx1 hx2
    exact ⟨(s, e), List.mem_append_right _ (by simp), hx1, hx2⟩
  exact hcov

/-- C2 witness: the protected range `[2, 4]` inside a 10-second clip whose
detector reports no speech at all is still fully covered. -/
theorem protectedRanges_preserved_witness :
    covers (computeKeepRanges 10 [((2 : ℚ), 4)] (fun _ _ => [])) 2 4 :=
  protectedRanges_preserved 10 [((2 : ℚ), 4)] (fun _ _ => []) 2 4
    (by simp) (by norm_num) (by norm_num) (by norm_num) (by simp)

/-- C6 (amended).  Image messages and dots-only texts reuse the fixed
notification sound of the message's side (sent sound for sender `"me"`,
received sound otherwise) and synthesize no speech; a message flagged
audio-only is never treated as an image by the bubble renderer; and an
audio-only message whose text is not dots-only still has its speech
synthesized (audio-only only suppresses the new frame, not the speech). -/
theorem sceneAudioSource_fallback (sent recv : String) (m : Msg) :
    ((bubbleIsImgFlag m = true ∨ isDotsOnly m.text = true) →
      sceneAudioSource sent recv m
        = SceneAudio.sfxFile (if m.sender = "me" then sent else recv)) ∧
    (m.audio_only = true → bubbleIsImgFlag m = false) ∧
    (m.audio_only = true → isDotsOnly m.text = false →
      sceneAudioSource sent recv m
        = SceneAudio.synthSpeech
            (if m.tts_text ≠ "" then m.tts_text else stripBlurMarkersS m.text)
            m.speaker) := by
  refine ⟨?_, ?_, ?_⟩
  · intro h
    rcases h with h | h <;> simp [sceneAudioSource, h]
  · intro h
    simp [bubbleIsImgFlag, h]
  · intro ha hd
    have himg : bubbleIsImgFlag m = false := by simp [bubbleIsImgFlag, ha]
    simp [sceneAudioSource, himg, hd]

/-- C6 counterexample.  An audio-only message with ordinary text
(`"hello"`) does not fall back to a notification sound: the code
synthesizes its speech, contradicting the claim that audio-only messages
reuse the fixed notification sound with no synthesis. -/
theorem sceneAudioSource_audioOnly_counterexample :
    sceneAudioSource "sent.mp3" "received.mp3"
        { sender := "bob", speaker := "bob", text := "hello",
          tts_text := "hello", audio_only := true }
      = SceneAudio.synthSpeech "hello" "bob" ∧
    (∀ p : String, SceneAudio.synthSpeech "hello" "bob" ≠ SceneAudio.sfxFile p) := by
  constructor
  · rfl
  · intro p h
    cases h

/-- C6 witness: a dots-only incoming message gets the received notification
sound. -/
theorem sceneAudioSource_fallback_witness :
    sceneAudioSource "sent.mp3" "received.mp3"
        { sender := "bob", speaker := "bob", text := "...", tts_text := "..." }
      = SceneAudio.sfxFile (if ("bob" : String) = "me" then "sent.mp3" else "received.mp3") ∧
    sceneAudioSource "sent.mp3" "received.mp3"
        { sender := "bob", speaker := "bob", text := "hello",
          tts_text := "hello", audio_only := true }
      = SceneAudio.synthSpeech
          (if ("hello" : String) ≠ "" then "hello" else stripBlurMarkersS "hello") "bob" :=
  ⟨(sceneAudioSource_fallback "sent.mp3" "received.mp3"
      { sender := "bob", speaker := "bob", text := "...", tts_text := "..." }).1
        (Or.inr (by decide)),
   (sceneAudioSource_fallback "sent.mp3" "received.mp3"
      { sender := "bob", speaker := "bob", text := "hello",
        tts_text := "hello", audio_only := true }).2.2 rfl (by decide)⟩

/-- The relation between a message's displayed text and its speech text
established by the message-construction branches: both derive from one raw
cleaned text through `parseTtsOverride`, the speech side stripped of
redaction markers; without a `" == "` override the speech text is exactly
the display text with redaction markers stripped. -/
def msgTextSpec (m : Msg) : Prop :=
  ∃ raw : List Char,
    m.text = (⟨(parseTtsOverride raw).1⟩ : String) ∧
    m.tts_text = (⟨stripBlurMarkers (parseTtsOverride raw).2⟩ : String) ∧
    (findSubIdx (' ' :: '=' :: '=' :: ' ' :: []) raw = none →
      m.tts_text = stripBlurMarkersS m.text)

theorem msgTextSpec_mk (raw : List Char) (m : Msg)
    (ht : m.text = (⟨(parseTtsOverride raw).1⟩ : String))
    (hs : m.tts_text = (⟨stripBlurMarkers (parseTtsOverride raw).2⟩ : String)) :
    msgTextSpec m := by
  refine ⟨raw, ht, hs, fun hnone => ?_⟩
  have hpo : parseTtsOverride raw = (raw, raw) := by
    unfold parseTtsOverride; rw [hnone]
  rw [ht, hs, hpo]
  rfl

/-- Message kinds as seen by the speech-text invariant: break, plug and
rizz messages are exempt, all others satisfy `msgTextSpec`. -/
def msgKindSpec (m : Msg) : Prop :=
  m.is_break = true ∨ m.is_plug = true ∨ m.is_rizz = true ∨ msgTextSpec m

theorem mem_flushThreads (s : PState) (m : Msg)
    (h : m ∈ ((flushThreads s).map Thread.messages).flatten) : m ∈ allMsgs s := by
  unfold flushThreads at h
  unfold allMsgs
  cases hc : s.currentContact with
  | none =>
    rw [hc] at h
    exact List.mem_append_left _ h
  | some cc =>
    rw [hc] at h
    dsimp only at h
    by_cases hcond : cc ≠ "" ∧ s.currentMsgs ≠ []
    · rw [if_pos hcond] at h
      rw [List.map_append, List.flatten_append] at h
      rcases List.mem_append.mp h with h1 | h2
      · exact List.mem_append_left _ h1
      · simp only [List.map_cons, List.map_nil, List.flatten_cons,
          List.flatten_nil, List.append_nil] at h2
        exact List.mem_append_right _ h2
    · rw [if_neg hcond] at h
      exact List.mem_append_left _ h

theorem allMsgs_applyKind_spec (s : PState) (k : LineKind) :
    ∀ m ∈ allMsgs (applyKind s k),
      m ∈ allMsgs s ∨ msgKindSpec m := by
  cases k with
  | skip => intro m hm; exact Or.inl hm
  | dropLine => intro m hm; exact Or.inl hm
  | brkLine d =>
    intro m hm
    by_cases hc : s.currentContact ≠ none
    · simp only [applyKind, if_pos hc, allMsgs] at hm
      rw [← List.append_assoc] at hm
      rcases List.mem_append.mp hm with h1 | h2
      · exact Or.inl h1
      · refine Or.inr (Or.inl ?_)
        rw [List.mem_singleton.mp h2]
        rfl
    · simp only [applyKind, if_neg hc] at hm
      exact Or.inl hm
  | plugsayLine sp txt =>
    intro m hm
    simp only [applyKind, allMsgs] at hm
    exact Or.inl hm
  | rizzsayLine sp txt =>
    intro m hm
    simp only [applyKind, allMsgs] at hm
    exact Or.inl hm
  | plugLine sp txt =>
    intro m hm
    by_cases hc : s.currentContact ≠ none
    · simp only [applyKind, if_pos hc, allMsgs] at hm
      rw [← List.append_assoc] at hm
      rcases List.mem_append.mp hm with h1 | h2
      · exact Or.inl h1
      · refine Or.inr (Or.inr (Or.inl ?_))
        rw [List.mem_singleton.mp h2]
        rfl
    · simp only [applyKind, if_neg hc, allMsgs] at hm
      exact Or.inl hm
  | rizzLine sp txt =>
    intro m hm
    by_cases hc : s.currentContact ≠ none
    · simp only [applyKind, if_pos hc, allMsgs] at hm
      rw [← List.append_assoc] at hm
      rcases List.mem_append.mp hm with h1 | h2
      · exact Or.inl h1
      · refine Or.inr (Or.inr (Or.inr (Or.inl ?_)))
        rw [List.mem_singleton.mp h2]
        rfl
    · simp only [applyKind, if_neg hc, allMsgs] at hm
      exact Or.inl hm
  | threadLine c a =>
    intro m hm
    simp only [applyKind, allMsgs, List.append_nil] at hm
    exact Or.inl (mem_flushThreads s m hm)
  | twoPartLine speakerSide senderSide textRaw =>
    intro m hm
    simp only [applyKind, allMsgs] at hm
    rw [← List.append_assoc] at hm
    rcases List.mem_append.mp hm with h1 | h2
    · exact Or.inl h1
    · refine Or.inr (Or.inr (Or.inr (Or.inr ?_)))
      rw [List.mem_singleton.mp h2]
      exact msgTextSpec_mk (parseTextWithSfx textRaw).1 _ rfl rfl
  | onePartLine senderRaw textRaw =>
    intro m hm
    simp only [applyKind, allMsgs] at hm
    rw [← List.append_assoc] at hm
    rcases List.mem_append.mp hm with h1 | h2
    · exact Or.inl h1
    · refine Or.inr (Or.inr (Or.inr (Or.inr ?_)))
      rw [List.mem_singleton.mp h2]
      exact msgTextSpec_mk (parseTextWithSfx textRaw).1 _ rfl rfl

theorem allMsgs_foldl_spec :
    ∀ (lines : List (List Char)) (s : PState),
      (∀ m ∈ allMsgs s, msgKindSpec m) →
      ∀ m ∈ allMsgs (lines.foldl stepLine s), msgKindSpec m := by
  intro lines
  induction lines with
  | nil => intro s hs; exact hs
  | cons l rest ih =>
    intro s hs
    refine ih (stepLine s l) ?_
    intro m hm
    rcases allMsgs_applyKind_spec s (classify l) m hm with h | h
    · exact hs m h
    · exact h

theorem flush_foldl_spec (lines : List (List Char)) :
    ∀ t ∈ flushThreads (lines.foldl stepLine {}), ∀ m ∈ t.messages, msgKindSpec m := by
  intro t ht m hm
  refine allMsgs_foldl_spec lines {} (by intro m' hm'; simp [allMsgs] at hm') m
    (mem_flushThreads _ m ?_)
  exact List.mem_flatten.mpr ⟨t.messages, List.mem_map_of_mem Thread.messages ht, hm⟩

theorem parse_threads_spec (rawLines : List (List Char)) :
    ∀ t ∈ (parseFileSettingsAndThreads rawLines).threads,
      ∀ m ∈ t.messages, msgKindSpec m := by
  intro t ht
  unfold parseFileSettingsAndThreads at ht
  dsimp only at ht
  exact flush_foldl_spec _ t ht

/-- C5 (amended).  Every text or image message produced by the parser has
its speech text obtained from the display side: both derive from one raw
cleaned text via the `" == "` override split, the speech side stripped of
redaction markers `\x7b...\x7d`; in particular, without an override the
speech text equals the display text with redaction markers stripped.  (The
speech text can be empty — exactly when that stripped source is empty —
so unconditional non-emptiness does not hold.) -/
theorem parser_tts_fallback (rawLines : List (List Char)) :
    ∀ t ∈ (parseFileSettingsAndThreads rawLines).threads, ∀ m ∈ t.messages,
      m.is_break = false → m.is_plug = false → m.is_rizz = false →
      msgTextSpec m := by
  intro t ht m hm hb hp hr
  rcases parse_threads_spec rawLines t ht m hm with h | h | h | h
  · rw [hb] at h; cases h
  · rw [hp] at h; cases h
  · rw [hr] at h; cases h
  · exact h

/-- C5 counterexample.  The parser emits a text message whose display text
is the non-empty `"\x7b\x7d"` but whose speech text is empty: the script
line `Bob: \x7b\x7d` yields `tts_text = ""`, refuting the claimed
unconditional non-emptiness of the speech text. -/
theorem parser_empty_tts_counterexample :
    (((parseFileSettingsAndThreads
        ["iMessage: Bob".data, "Bob: \x7b\x7d".data]).threads.map
          Thread.messages).flatten.map
        (fun m => (m.is_break, m.is_plug, m.is_rizz, m.text, m.tts_text)))
      = [(false, false, false, "\x7b\x7d", "")] := by decide

/-- C5 witness: the override line `Bob: hi == there` produces a message
whose text pair satisfies the amended relation. -/
theorem parser_tts_fallback_witness :
    msgTextSpec
      { sender := "Bob", speaker := "Bob", text := "hi", tts_text := "there" } :=
  parser_tts_fallback ["iMessage: Bob".data, "Bob: hi == there".data]
    ⟨"Bob", [{ sender := "Bob", speaker := "Bob", text := "hi", tts_text := "there" }],
      none⟩
    (by decide)
    { sender := "Bob", speaker := "Bob", text := "hi", tts_text := "there" }
    (by decide) rfl rfl rfl

/-- Whether a classified line is a thread header. -/
def LineKind.isThread : LineKind → Bool
  | .threadLine _ _ => true
  | _ => false

/-- Whether a classified line is a `plugsay` intro line. -/
def LineKind.isPlugsay : LineKind → Bool
  | .plugsayLine _ _ => true
  | _ => false

/-- Whether a classified line is a `rizzsay` intro line. -/
def LineKind.isRizzsay : LineKind → Bool
  | .rizzsayLine _ _ => true
  | _ => false

theorem dropWhile_head_not (p : Char → Bool) :
    ∀ (l : List Char) (c : Char) (cs : List Char),
      l.dropWhile p = c :: cs → p c = false := by
  intro l
  induction l with
  | nil => intro c cs h; simp [List.dropWhile] at h
  | cons a as ih =>
    intro c cs h
    rw [List.dropWhile_cons] at h
    by_cases hpa : p a = true
    · rw [if_pos hpa] at h
      exact ih c cs h
    · rw [if_neg hpa] at h
      injection h with h1 _
      rw [← h1]
      exact Bool.eq_false_iff.mpr hpa

theorem jsTrimL_ne_nil (x : Char) (xs : List Char) (hx : jsSpaceChar x = false) :
    jsTrimL (x :: xs) ≠ [] := by
  intro h
  unfold jsTrimL at h
  rw [List.dropWhile_cons, if_neg (by simp [hx])] at h
  have h2 : ((x :: xs).reverse.dropWhile jsSpaceChar) = [] :=
    List.reverse_eq_nil_iff.mp h
  have h3 := (List.dropWhile_eq_nil_iff).mp h2 x (by simp)
  rw [hx] at h3
  cases h3

theorem matchThread_contact (l c : List Char) (a : Option (List Char))
    (h : matchThread l = some (c, a)) : jsTrimL c ≠ [] := by
  unfold matchThread at h
  cases hdp : dropPrefixCI "imessage".data l with
  | none => rw [hdp] at h; cases h
  | some r0 =>
    rw [hdp] at h
    cases r0 with
    | nil => dsimp only at h; cases h
    | cons c0 cs0 =>
      dsimp only at h
      by_cases hsep : sepCI c0 = true
      · rw [if_pos hsep] at h
        by_cases hre : ((c0 :: cs0).dropWhile sepCI).isEmpty = true
        · rw [if_pos hre] at h; cases h
        · rw [if_neg hre] at h
          obtain ⟨x, xs, hrest⟩ : ∃ x xs, (c0 :: cs0).dropWhile sepCI = x :: xs := by
            cases hr2 : (c0 :: cs0).dropWhile sepCI with
            | nil => rw [hr2] at hre; simp at hre
            | cons x xs => exact ⟨x, xs, rfl⟩
          have hxsep : sepCI x = false := dropWhile_head_not sepCI _ x xs hrest
          have hxsp : jsSpaceChar x = false := by
            unfold sepCI at hxsep
            exact (Bool.or_eq_false_iff.mp hxsep).2
          cases hsp : splitAtFirst ':' ((c0 :: cs0).dropWhile sepCI) with
          | none =>
            rw [hsp] at h
            injection h with h2
            injection h2 with hc ha
            rw [← hc, hrest]
            exact jsTrimL_ne_nil x xs hxsp
          | some p =>
            obtain ⟨before, after⟩ := p
            rw [hsp] at h
            dsimp only at h
            by_cases haf : after.isEmpty = true
            · rw [if_pos haf] at h; cases h
            · rw [if_neg haf] at h
              injection h with h2
              injection h2 with hc ha
              have heq := splitAtFirst_eq ':' _ before after hsp
              rw [hrest] at heq
              cases before with
              | nil =>
                simp only [List.nil_append] at heq
                injection heq with hx1 _
                rw [hx1] at hxsep
                simp [sepCI] at hxsep
              | cons b bs =>
                have hbx : b = x := by
                  have : x :: xs = b :: (bs ++ ':' :: after) := by
                    rw [heq]; rfl
                  injection this with h1 _
                  exact h1.symm
                rw [← hc, hbx]
                exact jsTrimL_ne_nil x _ hxsp
      · rw [if_neg hsep] at h
        cases h

theorem classify_threadLine (l c : List Char) (a : Option (List Char))
    (h : classify l = .threadLine c a) : matchThread l = some (c, a) := by
  unfold classify at h
  repeat' split at h
  all_goals try (cases h)
  all_goals try (dsimp only at h; split at h <;> cases h)
  all_goals assumption

/-- JavaScript truthiness of the `currentContact` variable (`null` and the
empty string are falsy). -/
def contactTruthy : Option String → Bool
  | none => false
  | some cc => cc ≠ ""

/-- The intro fields a Plug message carries when no `plugsay` intro is
pending: its own speaker, empty texts, no sound effect, not silent
(worker.js 579-583, right-hand alternatives). -/
def plugIntroDefault (m : Msg) : Prop :=
  m.plugsay_speaker = m.speaker ∧ m.plugsay_text = "" ∧
  m.plugsay_tts_text = "" ∧ m.plugsay_sfx = none ∧ m.plugsay_silent = false

/-- The intro fields a Rizz message carries when no `rizzsay` intro is
pending (worker.js 615-619, right-hand alternatives). -/
def rizzIntroDefault (m : Msg) : Prop :=
  m.rizzsay_speaker = m.speaker ∧ m.rizzsay_text = "" ∧
  m.rizzsay_tts_text = "" ∧ m.rizzsay_sfx = none ∧ m.rizzsay_silent = false

theorem pendingPlugsay_applyKind (s : PState) (k : LineKind)
    (hk : k.isPlugsay = false) (hp : s.pendingPlugsay = none) :
    (applyKind s k).pendingPlugsay = none := by
  cases k with
  | skip => exact hp
  | dropLine => exact hp
  | brkLine d => simp only [applyKind]; split <;> exact hp
  | plugsayLine sp txt => simp [LineKind.isPlugsay] at hk
  | plugLine sp txt => rfl
  | rizzsayLine sp txt => exact hp
  | rizzLine sp txt => simp only [applyKind]; split <;> exact hp
  | threadLine c a => rfl
  | twoPartLine x y z => exact hp
  | onePartLine x y => exact hp

theorem pendingRizzsay_applyKind (s : PState) (k : LineKind)
    (hk : k.isRizzsay = false) (hr : s.pendingRizzsay = none) :
    (applyKind s k).pendingRizzsay = none := by
  cases k with
  | skip => exact hr
  | dropLine => exact hr
  | brkLine d => simp only [applyKind]; split <;> exact hr
  | plugsayLine sp txt => exact hr
  | plugLine sp txt => simp only [applyKind]; split <;> exact hr
  | rizzsayLine sp txt => simp [LineKind.isRizzsay] at hk
  | rizzLine sp txt => rfl
  | threadLine c a => rfl
  | twoPartLine x y z => exact hr
  | onePartLine x y => exact hr

theorem flushThreads_allMsgs (s : PState)
    (hc : contactTruthy s.currentContact = true) :
    ((flushThreads s).map Thread.messages).flatten = allMsgs s := by
  unfold flushThreads allMsgs
  cases hcc : s.currentContact with
  | none => rw [hcc] at hc; simp [contactTruthy] at hc
  | some cc =>
    dsimp only
    by_cases hmsgs : s.currentMsgs = []
    · have hno : ¬ (cc ≠ "" ∧ s.currentMsgs ≠ []) := fun h => h.2 hmsgs
      rw [if_neg hno, hmsgs]
      simp
    · have hccne : cc ≠ "" := by
        rw [hcc] at hc; simpa [contactTruthy] using hc
      rw [if_pos ⟨hccne, hmsgs⟩]
      simp

theorem allMsgs_applyKind_mono (s : PState) (k : LineKind)
    (hc : contactTruthy s.currentContact = true)
    (hthread : ∀ c a, k = .threadLine c a → jsTrimL c ≠ []) :
    contactTruthy (applyKind s k).currentContact = true ∧
    ∃ tail, allMsgs (applyKind s k) = allMsgs s ++ tail ∧
      ∀ m ∈ tail,
        (m.is_plug = true → s.pendingPlugsay = none → plugIntroDefault m) ∧
        (m.is_rizz = true → s.pendingRizzsay = none → rizzIntroDefault m) := by
  cases k with
  | skip => exact ⟨hc, [], by simp [applyKind], by simp⟩
  | dropLine => exact ⟨hc, [], by simp [applyKind], by simp⟩
  | plugsayLine sp txt => exact ⟨hc, [], by simp [applyKind, allMsgs], by simp⟩
  | rizzsayLine sp txt => exact ⟨hc, [], by simp [applyKind, allMsgs], by simp⟩
  | brkLine d =>
    constructor
    · simp only [applyKind]; split <;> exact hc
    · by_cases hcc : s.currentContact ≠ none
      · refine ⟨[brkMsg d], ?_, ?_⟩
        · simp [applyKind, hcc, allMsgs]
        · intro m hm
          rw [List.mem_singleton.mp hm]
          exact ⟨fun h _ => by simp [brkMsg] at h, fun h _ => by simp [brkMsg] at h⟩
      · exact ⟨[], by simp [applyKind, hcc], by simp⟩
  | plugLine sp txt =>
    constructor
    · simp only [applyKind]; split <;> exact hc
    · by_cases hcc : s.currentContact ≠ none
      · refine ⟨[mkPlugMsg s.pendingPlugsay sp txt], ?_, ?_⟩
        · simp [applyKind, hcc, allMsgs]
        · intro m hm
          rw [List.mem_singleton.mp hm]
          refine ⟨fun _ hpend => ?_, fun hrz _ => ?_⟩
          · rw [hpend]
            exact ⟨rfl, rfl, rfl, rfl, rfl⟩
          · simp [mkPlugMsg] at hrz
      · exact ⟨[], by simp [applyKind, hcc, allMsgs], by simp⟩
  | rizzLine sp txt =>
    constructor
    · simp only [applyKind]; split <;> exact hc
    · by_cases hcc : s.currentContact ≠ none
      · refine ⟨[mkRizzMsg s.pendingRizzsay sp txt], ?_, ?_⟩
        · simp [applyKind, hcc, allMsgs]
        · intro m hm
          rw [List.mem_singleton.mp hm]
          refine ⟨fun hpl _ => ?_, fun _ hpend => ?_⟩
          · simp [mkRizzMsg] at hpl
          · rw [hpend]
            exact ⟨rfl, rfl, rfl, rfl, rfl⟩
      · exact ⟨[], by simp [applyKind, hcc, allMsgs], by simp⟩
  | threadLine c a =>
    constructor
    · have hne := hthread c a rfl
      simp only [applyKind, contactTruthy]
      simp only [ne_eq, decide_eq_true_eq]
      intro hmk
      exact hne (congrArg String.data hmk)
    · refine ⟨[], ?_, by simp⟩
      have hfl := flushThreads_allMsgs s hc
      simp only [applyKind, allMsgs] at hfl ⊢
      rw [List.append_nil, List.append_nil, hfl]
  | twoPartLine x y z =>
    refine ⟨hc, [mkTwoPartMsg x y z], by simp [applyKind, allMsgs], ?_⟩
    intro m hm
    rw [List.mem_singleton.mp hm]
    exact ⟨fun h _ => by simp [mkTwoPartMsg] at h, fun h _ => by simp [mkTwoPartMsg] at h⟩
  | onePartLine x y =>
    refine ⟨hc, [mkOnePartMsg x y], by simp [applyKind, allMsgs], ?_⟩
    intro m hm
    rw [List.mem_singleton.mp hm]
    exact ⟨fun h _ => by simp [mkOnePartMsg] at h, fun h _ => by simp [mkOnePartMsg] at h⟩

theorem foldl_intro_default :
    ∀ (rest : List (List Char)) (s : PState),
      contactTruthy s.currentContact = true →
      s.pendingPlugsay = none → s.pendingRizzsay = none →
      (∀ l ∈ rest, (classify l).isPlugsay = false ∧ (classify l).isRizzsay = false) →
      ∃ tail, allMsgs (rest.foldl stepLine s) = allMsgs s ++ tail ∧
        ∀ m ∈ tail, (m.is_plug = true → plugIntroDefault m) ∧
                    (m.is_rizz = true → rizzIntroDefault m) := by
  intro rest
  induction rest with
  | nil => intro s _ _ _ _; exact ⟨[], by simp, by simp⟩
  | cons l rest ih =>
    intro s hc hp hr hall
    have hthread : ∀ c a, classify l = LineKind.threadLine c a → jsTrimL c ≠ [] :=
      fun c a h => matchThread_contact l c a (classify_threadLine l c a h)
    obtain ⟨hc', tail1, heq1, hdef1⟩ := allMsgs_applyKind_mono s (classify l) hc hthread
    have hp' : (applyKind s (classify l)).pendingPlugsay = none :=
      pendingPlugsay_applyKind s (classify l) (hall l (List.mem_cons_self l rest)).1 hp
    have hr' : (applyKind s (classify l)).pendingRizzsay = none :=
      pendingRizzsay_applyKind s (classify l) (hall l (List.mem_cons_self l rest)).2 hr
    obtain ⟨tail2, heq2, hdef2⟩ := ih (applyKind s (classify l)) hc' hp' hr'
      (fun l' hl' => hall l' (List.mem_cons_of_mem l hl'))
    refine ⟨tail1 ++ tail2, ?_, ?_⟩
    · rw [List.foldl_cons]
      show allMsgs (rest.foldl stepLine (applyKind s (classify l))) = _
      rw [heq2, heq1, List.append_assoc]
    · intro m hm
      rcases List.mem_append.mp hm with h1 | h2
      · exact ⟨fun hpl => (hdef1 m h1).1 hpl hp, fun hrz => (hdef1 m h1).2 hrz hr⟩
      · exact hdef2 m h2

/-- C9.  Intro state is thread-scoped: processing a thread-header line
leaves no pending `plugsay`/`rizzsay` intro, and as long as no further
"say" line occurs, every Plug or Rizz message emitted after the header
carries only the default intro fields (its own speaker, empty intro texts,
no intro sound effect, silent flag false) — an intro buffered before the
header never leaks across it. -/
theorem introState_threadScoped (s : PState) (hdr : List Char)
    (rest : List (List Char)) (c : List Char) (a : Option (List Char))
    (hhdr : classify hdr = LineKind.threadLine c a)
    (hrest : ∀ l ∈ rest,
      (classify l).isPlugsay = false ∧ (classify l).isRizzsay = false) :
    (stepLine s hdr).pendingPlugsay = none ∧
    (stepLine s hdr).pendingRizzsay = none ∧
    ∃ tail, allMsgs (rest.foldl stepLine (stepLine s hdr))
        = allMsgs (stepLine s hdr) ++ tail ∧
      ∀ m ∈ tail, (m.is_plug = true → plugIntroDefault m) ∧
                  (m.is_rizz = true → rizzIntroDefault m) := by
  have hstep : stepLine s hdr = applyKind s (LineKind.threadLine c a) := by
    unfold stepLine; rw [hhdr]
  have hp : (stepLine s hdr).pendingPlugsay = none := by rw [hstep]; rfl
  have hr : (stepLine s hdr).pendingRizzsay = none := by rw [hstep]; rfl
  have hc : contactTruthy (stepLine s hdr).currentContact = true := by
    rw [hstep]
    simp only [applyKind, contactTruthy, ne_eq, decide_eq_true_eq]
    intro hmk
    exact matchThread_contact hdr c a (classify_threadLine hdr c a hhdr)
      (congrArg String.data hmk)
  exact ⟨hp, hr, foldl_intro_default rest (stepLine s hdr) hc hp hr hrest⟩

/-- C9 witness: after the header `iMessage: Carl`, a lone `plug` reply with
no preceding `plugsay` yields only default-intro messages, and the header
itself cleared both pending intros. -/
theorem introState_threadScoped_witness :
    (stepLine { pendingPlugsay := some (mkPending "Eve".data "hi there".data) }
        "iMessage: Carl".data).pendingPlugsay = none ∧
      (stepLine { pendingPlugsay := some (mkPending "Eve".data "hi there".data) }
        "iMessage: Carl".data).pendingRizzsay = none ∧
      ∃ tail,
        allMsgs (["plug > bob: yo".data].foldl stepLine
            (stepLine { pendingPlugsay := some (mkPending "Eve".data "hi there".data) }
              "iMessage: Carl".data))
          = allMsgs (stepLine
              { pendingPlugsay := some (mkPending "Eve".data "hi there".data) }
              "iMessage: Carl".data) ++ tail ∧
        ∀ m ∈ tail, (m.is_plug = true → plugIntroDefault m) ∧
                    (m.is_rizz = true → rizzIntroDefault m) :=
  introState_threadScoped
    { pendingPlugsay := some (mkPending "Eve".data "hi there".data) }
    "iMessage: Carl".data ["plug > bob: yo".data] "Carl".data none
    (by decide)
    (by decide)

/-- A line survives pass 1 iff it is neither a `UM` nor a `CR` directive. -/
def pass1Keep (l : List Char) : Bool :=
  (matchKeyNum "um".data l).isNone && (matchKeyNum "cr".data l).isNone

theorem pass1Step_snd :
    ∀ (ls : List (List Char)) (acc : String × ℕ × List (List Char)),
      (ls.foldl pass1Step acc).2.2 = acc.2.2 ++ ls.filter pass1Keep := by
  intro ls
  induction ls with
  | nil => intro acc; simp
  | cons l rest ih =>
    intro acc
    rw [List.foldl_cons, ih, List.filter_cons]
    cases hum : matchKeyNum "um".data l with
    | some d =>
      have hkeep : pass1Keep l = false := by simp [pass1Keep, hum]
      rw [hkeep]
      simp only [Bool.false_eq_true, if_false]
      unfold pass1Step
      rw [hum]
    | none =>
      cases hcr : matchKeyNum "cr".data l with
      | some d =>
        have hkeep : pass1Keep l = false := by simp [pass1Keep, hcr]
        rw [hkeep]
        simp only [Bool.false_eq_true, if_false]
        unfold pass1Step
        rw [hum, hcr]
      | none =>
        have hkeep : pass1Keep l = true := by simp [pass1Keep, hum, hcr]
        rw [hkeep]
        simp only [if_true]
        unfold pass1Step
        rw [hum, hcr]
        simp

theorem applyKind_nonthread (s : PState) (k : LineKind)
    (hk : k.isThread = false) (hc : s.currentContact = none) :
    (applyKind s k).threads = s.threads ∧ (applyKind s k).currentContact = none := by
  cases k with
  | skip => exact ⟨rfl, hc⟩
  | dropLine => exact ⟨rfl, hc⟩
  | brkLine d => constructor <;> simp [applyKind, hc]
  | plugsayLine sp txt => exact ⟨rfl, hc⟩
  | plugLine sp txt => constructor <;> simp [applyKind, hc]
  | rizzsayLine sp txt => exact ⟨rfl, hc⟩
  | rizzLine sp txt => constructor <;> simp [applyKind, hc]
  | threadLine c a => simp [LineKind.isThread] at hk
  | twoPartLine x y z => exact ⟨rfl, hc⟩
  | onePartLine x y => exact ⟨rfl, hc⟩

/-- The relation between two parser states that agree on the emitted
threads and both have no open thread, or are equal. -/
def pstateRel (s1 s2 : PState) : Prop :=
  s1 = s2 ∨ (s1.threads = s2.threads ∧ s1.currentContact = none ∧
    s2.currentContact = none)

theorem pstateRel_step (s1 s2 : PState) (l : List Char) (h : pstateRel s1 s2) :
    pstateRel (stepLine s1 l) (stepLine s2 l) := by
  rcases h with h | ⟨ht, h1, h2⟩
  · rw [h]; exact Or.inl rfl
  · cases hk : (classify l).isThread with
    | false =>
      obtain ⟨ht1, hc1⟩ := applyKind_nonthread s1 (classify l) hk h1
      obtain ⟨ht2, hc2⟩ := applyKind_nonthread s2 (classify l) hk h2
      exact Or.inr ⟨ht1.trans (ht.trans ht2.symm), hc1, hc2⟩
    | true =>
      obtain ⟨c, a, hca⟩ : ∃ c a, classify l = LineKind.threadLine c a := by
        revert hk
        cases hcl : classify l <;> intro hk <;>
          first
            | exact ⟨_, _, rfl⟩
            | simp [LineKind.isThread] at hk
      apply Or.inl
      unfold stepLine
      rw [hca]
      have hf1 : flushThreads s1 = s1.threads := by
        unfold flushThreads; rw [h1]
      have hf2 : flushThreads s2 = s2.threads := by
        unfold flushThreads; rw [h2]
      simp only [applyKind]
      rw [hf1, hf2, ht]

theorem pstateRel_foldl :
    ∀ (ls : List (List Char)) (s1 s2 : PState), pstateRel s1 s2 →
      pstateRel (ls.foldl stepLine s1) (ls.foldl stepLine s2) := by
  intro ls
  induction ls with
  | nil => intro s1 s2 h; exact h
  | cons l rest ih =>
    intro s1 s2 h
    exact ih _ _ (pstateRel_step s1 s2 l h)

theorem foldl_nonthread_keeps :
    ∀ (ls : List (List Char)) (s : PState),
      (∀ l ∈ ls, (classify l).isThread = false) →
      s.currentContact = none →
      (ls.foldl stepLine s).threads = s.threads ∧
        (ls.foldl stepLine s).currentContact = none := by
  intro ls
  induction ls with
  | nil => intro s _ hc; exact ⟨rfl, hc⟩
  | cons l rest ih =>
    intro s hls hc
    obtain ⟨ht1, hc1⟩ :=
      applyKind_nonthread s (classify l) (hls l (List.mem_cons_self l rest)) hc
    obtain ⟨ht2, hc2⟩ := ih (stepLine s l) (fun l' hl' => hls l' (List.mem_cons_of_mem l hl')) hc1
    exact ⟨ht2.trans ht1, hc2⟩

/-- C10.  Pre-header messages are discarded: prepending any lines none of
which is a thread-header line leaves the parser's thread output unchanged
— message lines parsed with no open thread are silently lost, and every
emitted thread only contains messages from lines after its header. -/
theorem preHeader_discarded (pre rest : List (List Char))
    (hpre : ∀ l ∈ pre, (classify (jsTrimL l)).isThread = false) :
    (parseFileSettingsAndThreads (pre ++ rest)).threads
      = (parseFileSettingsAndThreads rest).threads := by
  unfold parseFileSettingsAndThreads
  dsimp only
  rw [pass1Step_snd, pass1Step_snd, List.map_append, List.filter_append,
    List.filter_append]
  dsimp only
  rw [List.nil_append, List.nil_append, List.foldl_append]
  set preL := (((pre.map jsTrimL).filter (fun l => !l.isEmpty)).filter pass1Keep)
    with hpreLdef
  set restL := (((rest.map jsTrimL).filter (fun l => !l.isEmpty)).filter pass1Keep)
  have hpreL : ∀ l ∈ preL, (classify l).isThread = false := by
    intro l hl
    rw [hpreLdef] at hl
    have hl2 : l ∈ pre.map jsTrimL :=
      (List.mem_filter.mp (List.mem_filter.mp hl).1).1
    obtain ⟨l0, hl0, hml⟩ := List.mem_map.mp hl2
    rw [← hml]
    exact hpre l0 hl0
  obtain ⟨hth, hcn⟩ := foldl_nonthread_keeps preL {} hpreL rfl
  have hrel0 : pstateRel (preL.foldl stepLine {}) {} := Or.inr ⟨by rw [hth], hcn, rfl⟩
  have hrel := pstateRel_foldl restL _ _ hrel0
  rcases hrel with h | ⟨ht, h1, h2⟩
  · rw [h]
  · unfold flushThreads
    rw [h1, h2]
    exact ht

/-- C10 witness: a message line before the first header (`Bob: hi`)
disappears — the parse of the prefixed script has the same threads as the
parse without it. -/
theorem preHeader_discarded_witness :
    (parseFileSettingsAndThreads
        ["Bob: hi".data, "iMessage: Carl".data, "Carl: yo".data]).threads
      = (parseFileSettingsAndThreads
          ["iMessage: Carl".data, "Carl: yo".data]).threads :=
  preHeader_discarded ["Bob: hi".data]
    ["iMessage: Carl".data, "Carl: yo".data] (by decide)
